import Mathlib

/- Verification of the document indexing and hybrid retrieval engine of
   `chatbot_optimized_0615.py` (class `InstitutionalPDFChatbot`).

   Shallow embedding conventions:
   - Python strings are modelled as `List Char` (`len` = list length);
   - Python float arithmetic on scores is modelled exactly over `ℚ`;
   - external collaborators (the sentence-transformer encoder, NLTK sentence
     splitting, sklearn's TF-IDF fit/transform and the two cosine-similarity
     routines) are oracle parameters;
   - methods that return `False` / raise-and-catch are modelled with `Option`;
   - timestamps (`datetime`) are integer epoch seconds. -/

/-- Python `str` is modelled as a list of characters. -/
abbrev PyStr : Type := List Char

/-- Whitespace test used by Python's `str.strip()` / `str.split()`. -/
def isWs (c : Char) : Bool := c.isWhitespace

/-- Python `s.strip()`: drop leading and trailing whitespace. -/
def pyStrip (s : PyStr) : PyStr :=
  ((s.dropWhile isWs).reverse.dropWhile isWs).reverse

/-- Scanner for `pySplitWs`; `acc` holds the word being built, reversed. -/
def pySplitWsAux : PyStr → PyStr → List PyStr
  | [], acc => if acc.isEmpty then [] else [acc.reverse]
  | c :: cs, acc =>
    if isWs c then
      if acc.isEmpty then pySplitWsAux cs [] else acc.reverse :: pySplitWsAux cs []
    else pySplitWsAux cs (c :: acc)

/-- Python `s.split()` with no separator: split on runs of whitespace and
drop empty pieces. -/
def pySplitWs (s : PyStr) : List PyStr := pySplitWsAux s []

/-- Python `' '.join(parts)`. -/
def joinSpace : List PyStr → PyStr
  | [] => []
  | [p] => p
  | p :: q :: ps => p ++ ' ' :: joinSpace (q :: ps)

/-- Python slice `l[-n:]` as the code uses it (always with
`n = min k l.length`, so for `n = 0` the list is empty on both readings). -/
def takeRight (n : Nat) (l : List α) : List α := l.drop (l.length - n)

/-- `Config.CHUNK_SIZE` from the source. -/
def Config.CHUNK_SIZE : Nat := 800

/-- `Config.CHUNK_OVERLAP` from the source. -/
def Config.CHUNK_OVERLAP : Nat := 150

/-- `Config.SEARCH_RESULTS` from the source. -/
def Config.SEARCH_RESULTS : Nat := 13

/-- `Config.CACHE_DURATION_DAYS` from the source. -/
def Config.CACHE_DURATION_DAYS : Int := 90

/-- `Config.BATCH_SIZE` from the source. -/
def Config.BATCH_SIZE : Nat := 32

/-- `Config.MAX_RETRIES` from the source. -/
def Config.MAX_RETRIES : Nat := 2

/-- A chunk record `{'text', 'source', 'chunk_id'}` as built by
`smart_chunk_text`.  The two extra fields record intermediate values the
code computes while closing the chunk: `coreSentences` is the value of
`current_chunk` at closing time (so `joinSpace coreSentences` is the first
assignment to `chunk_text`, the chunk's core content before any overlap
prefix) and `overlapWords` is the `overlap_words` list prepended to it
(empty for the first chunk of a document). -/
structure Chunk where
  text : PyStr
  source : PyStr
  chunk_id : Nat
  coreSentences : List PyStr
  overlapWords : List PyStr
deriving DecidableEq, Inhabited

/-- The chunk's core content as a string: the first assignment
`chunk_text = ' '.join(current_chunk)` in `smart_chunk_text`, before the
overlap prefix is prepended. -/
def Chunk.coreText (c : Chunk) : PyStr := joinSpace c.coreSentences

/-- Loop state of `smart_chunk_text`: the emitted chunks plus the running
`current_chunk` / `current_length`. -/
structure ChunkState where
  chunks : List Chunk
  current_chunk : List PyStr
  current_length : Nat
deriving DecidableEq, Inhabited

/-- Closing a chunk in `smart_chunk_text`:
`chunk_text = ' '.join(current_chunk)`; if previous chunks exist and
`CHUNK_OVERLAP > 0`, the last `min(CHUNK_OVERLAP // 5, len(prev_chunk_words))`
words of the previous chunk's text are prepended; `chunk_id = len(chunks)`. -/
def mkChunk (chunks : List Chunk) (current_chunk : List PyStr) (source : PyStr) : Chunk :=
  let core := joinSpace current_chunk
  if chunks.isEmpty ∨ Config.CHUNK_OVERLAP = 0 then
    { text := core, source := source, chunk_id := chunks.length,
      coreSentences := current_chunk, overlapWords := [] }
  else
    let prev_chunk_words := pySplitWs (chunks.getLastD default).text
    let overlap_words :=
      takeRight (min (Config.CHUNK_OVERLAP / 5) prev_chunk_words.length) prev_chunk_words
    { text := joinSpace overlap_words ++ ' ' :: core, source := source,
      chunk_id := chunks.length, coreSentences := current_chunk,
      overlapWords := overlap_words }

/-- One iteration of the `for sentence in sentences` loop of
`smart_chunk_text`. -/
def chunkStep (source : PyStr) (st : ChunkState) (sentence : PyStr) : ChunkState :=
  let s := pyStrip sentence
  if s.isEmpty then st
  else
    let sentence_length := s.length
    if Config.CHUNK_SIZE < st.current_length + sentence_length ∧
        ¬ st.current_chunk.isEmpty then
      let chunks' := st.chunks ++ [mkChunk st.chunks st.current_chunk source]
      if 0 < Config.CHUNK_OVERLAP then
        let overlap_sentences := takeRight (min 2 st.current_chunk.length) st.current_chunk
        let current' := overlap_sentences ++ [s]
        { chunks := chunks', current_chunk := current',
          current_length := (current'.map List.length).sum }
      else
        { chunks := chunks', current_chunk := [s], current_length := sentence_length }
    else
      { chunks := st.chunks, current_chunk := st.current_chunk ++ [s],
        current_length := st.current_length + sentence_length }

/-- The flush of the final `current_chunk` (`# Add the last chunk`). -/
def flushChunks (st : ChunkState) (source : PyStr) : List Chunk :=
  if st.current_chunk.isEmpty then st.chunks
  else st.chunks ++ [mkChunk st.chunks st.current_chunk source]

/-- `smart_chunk_text`.  The sentence-splitting step (NLTK `sent_tokenize`
with a regex fallback) is an external collaborator, so the function is
modelled from the sentence list that step produces. -/
def smart_chunk_text (sentences : List PyStr) (source : PyStr) : List Chunk :=
  flushChunks
    (sentences.foldl (chunkStep source) { chunks := [], current_chunk := [], current_length := 0 })
    source

/-- A dense vector (an embedding row or TF-IDF row). -/
abbrev Vec : Type := List ℚ

/-- A fitted sklearn `TfidfVectorizer` is an opaque external object fully
determined by the corpus it was fitted on; the model represents it by that
corpus. -/
structure TfidfVectorizer where
  fittedOn : List PyStr
deriving DecidableEq, Inhabited

/-- The four `self` fields built by `create_chunks_and_embeddings` and
restored by `load_from_cache`. -/
structure EngineIndex where
  text_chunks : List Chunk
  chunk_embeddings : List Vec
  tfidf_vectorizer : Option TfidfVectorizer
  tfidf_matrix : Option (List Vec)
deriving DecidableEq, Inhabited

/-- `_create_tfidf_index`: a no-op when there are no chunks (both fields keep
their initial `None`), otherwise a single global fit over all chunk texts in
chunk order.  `fit_transform` itself is external (sklearn); `fitMatrix` is
the oracle producing its weight matrix. -/
def createTfidfIndex (fitMatrix : List PyStr → List Vec) (text_chunks : List Chunk) :
    Option TfidfVectorizer × Option (List Vec) :=
  if text_chunks.isEmpty then (none, none)
  else
    let chunk_texts := text_chunks.map Chunk.text
    (some { fittedOn := chunk_texts }, some (fitMatrix chunk_texts))

/-- Fuel-indexed batching: emit `l.take n`, recurse on `l.drop n`.  With fuel
`≥ l.length` this is the Python batching
`[chunk_texts[i:i+n] for i in range(0, len(chunk_texts), n)]`. -/
def pyBatchesFuel : Nat → Nat → List α → List (List α)
  | 0, _, _ => []
  | _ + 1, _, [] => []
  | fuel + 1, n, x :: xs => (x :: xs).take n :: pyBatchesFuel fuel n ((x :: xs).drop n)

/-- The batches `chunk_texts[i:i+BATCH_SIZE]` of the embedding loop. -/
def pyBatches (n : Nat) (l : List α) : List (List α) := pyBatchesFuel l.length n l

/-- The per-batch retry loop around `embedding_model.encode`: attempts
`0, …, MAX_RETRIES-1`, first success wins; `none` models the exception
re-raised after the last attempt.  `encode` is the external encoder oracle,
indexed by the attempt number. -/
def encodeWithRetry (encode : Nat → List PyStr → Option (List Vec)) (batch : List PyStr) :
    Option (List Vec) :=
  (List.range Config.MAX_RETRIES).findSome? fun attempt => encode attempt batch

/-- `create_chunks_and_embeddings`.  `pdf_contents` carries, per file, the
sentence list of its extracted text (`smart_chunk_text` is modelled from the
sentence level, see there).  `none` models the `return False` paths: no
documents, no chunks, or an embedding batch failing after exhausting its
retries — the exception is caught by the outer `except` before
`self.chunk_embeddings` is ever assigned. -/
def create_chunks_and_embeddings (encode : Nat → List PyStr → Option (List Vec))
    (fitMatrix : List PyStr → List Vec)
    (pdf_contents : List (PyStr × List PyStr)) : Option EngineIndex :=
  if pdf_contents.isEmpty then none
  else
    let text_chunks := pdf_contents.flatMap fun fc => smart_chunk_text fc.2 fc.1
    if text_chunks.isEmpty then none
    else
      let chunk_texts := text_chunks.map Chunk.text
      match (pyBatches Config.BATCH_SIZE chunk_texts).mapM (encodeWithRetry encode) with
      | none => none
      | some embeddings_list =>
        let tfidf := createTfidfIndex fitMatrix text_chunks
        some { text_chunks := text_chunks, chunk_embeddings := embeddings_list.flatten,
               tfidf_vectorizer := tfidf.1, tfidf_matrix := tfidf.2 }

/-- State of one on-disk cache artifact: absent (`FileNotFoundError` on
open), present but unreadable (any other exception while reading or
parsing), or successfully read. -/
inductive Artifact (α : Type) where
  | missing : Artifact α
  | corrupt : Artifact α
  | present : α → Artifact α
deriving DecidableEq, Inhabited

/-- The artifact files under one cache path (one corpus fingerprint), as
written by `save_to_cache`.  `meta` holds the parsed `cached_at` timestamp;
`present none` models a readable JSON whose `cached_at` is absent, falsy, or
fails `datetime.fromisoformat`. -/
structure CacheFiles where
  meta : Artifact (Option Int)
  chunks : Artifact (List Chunk)
  embeddings : Artifact (List Vec)
  tfidf_vectorizer : Artifact TfidfVectorizer
  tfidf_matrix : Artifact (List Vec)
deriving DecidableEq, Inhabited

/-- `timedelta(days=CACHE_DURATION_DAYS)` in seconds. -/
def cacheDurationSeconds : Int := Config.CACHE_DURATION_DAYS * 86400

/-- `is_cache_valid`: the meta file must exist, parse, carry a usable
`cached_at`, and satisfy `datetime.now() - cached_date < timedelta(days=90)`;
every failure path returns `False`. -/
def is_cache_valid (files : CacheFiles) (now : Int) : Bool :=
  match files.meta with
  | .missing => false
  | .corrupt => false
  | .present none => false
  | .present (some cached_date) => decide (now - cached_date < cacheDurationSeconds)

/-- `load_from_cache`; `none` models `return False`.  A missing TF-IDF
vectorizer file — or a `FileNotFoundError` from loading the TF-IDF weight
matrix — is caught by the inner `except FileNotFoundError` and answered by
rebuilding the index from the just-loaded chunks; any other artifact failure
falls through to the outer `except` and `False`.  The fields start from a
fresh `InstitutionalPDFChatbot.__init__` (all `None`), as in
`initialize_chatbot`. -/
def load_from_cache (fitMatrix : List PyStr → List Vec) (files : CacheFiles) (now : Int) :
    Option EngineIndex :=
  if ¬ is_cache_valid files now then none
  else
    match files.chunks with
    | .missing => none
    | .corrupt => none
    | .present text_chunks =>
      match files.embeddings with
      | .missing => none
      | .corrupt => none
      | .present chunk_embeddings =>
        match files.tfidf_vectorizer with
        | .corrupt => none
        | .missing =>
          let tfidf := createTfidfIndex fitMatrix text_chunks
          some { text_chunks := text_chunks, chunk_embeddings := chunk_embeddings,
                 tfidf_vectorizer := tfidf.1, tfidf_matrix := tfidf.2 }
        | .present v =>
          match files.tfidf_matrix with
          | .corrupt => none
          | .missing =>
            let tfidf := createTfidfIndex fitMatrix text_chunks
            some { text_chunks := text_chunks, chunk_embeddings := chunk_embeddings,
                   tfidf_vectorizer := tfidf.1, tfidf_matrix := tfidf.2 }
          | .present m =>
            some { text_chunks := text_chunks, chunk_embeddings := chunk_embeddings,
                   tfidf_vectorizer := some v, tfidf_matrix := some m }

/-- A chunk as returned by `hybrid_search`: `chunk.copy()` plus the three
score fields set from the score arrays. -/
structure ScoredChunk where
  chunk : Chunk
  semantic_score : ℚ
  keyword_score : ℚ
  combined_score : ℚ
deriving DecidableEq, Inhabited

/-- Oracles for the external numeric collaborators of `hybrid_search`: the
attempt-indexed query encoder, the two cosine-similarity routines
(`sentence_transformers.util.cos_sim` row, and sklearn `cosine_similarity`
row) and the fitted vectorizer's `transform` on the question. -/
structure SearchOracles where
  encode : Nat → PyStr → Option Vec
  cosSimSem : Vec → Vec → ℚ
  cosSimKw : Vec → Vec → ℚ
  transform : TfidfVectorizer → PyStr → Vec

/-- The `self` fields read by `hybrid_search` (`chunk_embeddings` is `None`
until an index has been built or loaded). -/
structure SearchState where
  text_chunks : List Chunk
  chunk_embeddings : Option (List Vec)
  tfidf_vectorizer : Option TfidfVectorizer
  tfidf_matrix : Option (List Vec)
deriving Inhabited

/-- The query-encoding retry loop of `hybrid_search` (attempts
`0, …, MAX_RETRIES-1`; `none` models `return []` after the last attempt). -/
def questionEmbedding (oracles : SearchOracles) (question : PyStr) : Option Vec :=
  (List.range Config.MAX_RETRIES).findSome? fun attempt => oracles.encode attempt question

/-- `semantic_scores = util.cos_sim(question_embedding, chunk_embeddings)[0]`:
one raw cosine score per embedding row, in row order. -/
def semanticScores (oracles : SearchOracles) (q : Vec) (embs : List Vec) : List ℚ :=
  embs.map (oracles.cosSimSem q)

/-- `keyword_scores`: `np.zeros(len(text_chunks))` unless both
`tfidf_vectorizer` and `tfidf_matrix` are available, in which case each
TF-IDF row is scored against the transformed question. -/
def keywordScores (oracles : SearchOracles) (st : SearchState) (question : PyStr) : List ℚ :=
  match st.tfidf_vectorizer, st.tfidf_matrix with
  | some v, some m => m.map (oracles.cosSimKw (oracles.transform v question))
  | _, _ => List.replicate st.text_chunks.length 0

/-- `combined_scores = 0.7 * ((semantic + 1) / 2) + 0.3 * keyword` (the
float literals `0.7`, `0.3` modelled as exact rationals). -/
def combinedScores (sem kw : List ℚ) : List ℚ :=
  List.zipWith (fun s k => 0.7 * ((s + 1) / 2) + 0.3 * k) sem kw

/-- The order `np.argsort` sorts indices by: ascending score.  Ties are
modelled in increasing index order (a stable ascending argsort; numpy's tie
order under its default sort is implementation-defined, and agrees with the
stable order on small arrays, where it falls back to insertion sort). -/
def argsortLe (scores : List ℚ) (i j : Nat) : Prop :=
  scores.getD i 0 < scores.getD j 0 ∨ (scores.getD i 0 = scores.getD j 0 ∧ i ≤ j)

instance argsortLeDecidable (scores : List ℚ) : DecidableRel (argsortLe scores) := by
  intro i j
  unfold argsortLe
  infer_instance

/-- `np.argsort(combined_scores)`. -/
def argsort (scores : List ℚ) : List Nat :=
  List.insertionSort (argsortLe scores) (List.range scores.length)

/-- `top_indices = np.argsort(combined_scores)[-Config.SEARCH_RESULTS:][::-1]`. -/
def selectTopK (scores : List ℚ) : List Nat :=
  (takeRight Config.SEARCH_RESULTS (argsort scores)).reverse

/-- One entry of `relevant_chunks`: `self.text_chunks[idx].copy()` with the
three scores at index `idx` attached. -/
def scoredChunkAt (text_chunks : List Chunk) (sem kw comb : List ℚ) (idx : Nat) : ScoredChunk :=
  { chunk := text_chunks.getD idx default, semantic_score := sem.getD idx 0,
    keyword_score := kw.getD idx 0, combined_score := comb.getD idx 0 }

/-- `hybrid_search`.  The whole body runs inside `try/except` returning `[]`;
the explicit length guard models the numpy shape error that an index with
mismatched score-array lengths would raise inside that `try` (numpy would
instead broadcast a length-1 array, a corner no reachable index state
produces). -/
def hybrid_search (oracles : SearchOracles) (st : SearchState) (question : PyStr) :
    List ScoredChunk :=
  match st.chunk_embeddings with
  | none => []
  | some embs =>
    if st.text_chunks.length = 0 then []
    else
      match questionEmbedding oracles question with
      | none => []
      | some q =>
        let semantic_scores := semanticScores oracles q embs
        let keyword_scores := keywordScores oracles st question
        if semantic_scores.length ≠ st.text_chunks.length ∨
            keyword_scores.length ≠ st.text_chunks.length then []
        else
          let combined_scores := combinedScores semantic_scores keyword_scores
          let top_indices := selectTopK combined_scores
          let relevant_chunks :=
            top_indices.map (scoredChunkAt st.text_chunks semantic_scores keyword_scores combined_scores)
          relevant_chunks.filter fun c => decide (0.15 < c.combined_score)

/-! ### Basic facts about the string model -/

/-- A string containing at least one non-whitespace character (exactly the
strings that survive `strip()` non-trivially and contribute to `split()`). -/
def hasNonWs (s : PyStr) : Prop := ∃ c ∈ s, isWs c = false

theorem pyStrip_hasNonWs (s : PyStr) (h : pyStrip s ≠ []) : hasNonWs (pyStrip s) := by
  unfold pyStrip at h ⊢
  have hne : ((s.dropWhile isWs).reverse.dropWhile isWs) ≠ [] := by
    intro hcon
    rw [hcon] at h
    exact h rfl
  refine ⟨((s.dropWhile isWs).reverse.dropWhile isWs).head hne, ?_, ?_⟩
  · rw [List.mem_reverse]
    exact List.head_mem hne
  · exact List.head_dropWhile_not isWs _ hne

theorem pySplitWsAux_ne_nil :
    ∀ (s : PyStr) (acc : PyStr), (hasNonWs s ∨ acc ≠ []) → pySplitWsAux s acc ≠ [] := by
  intro s
  induction s with
  | nil =>
    intro acc h
    rcases h with h | h
    · rcases h with ⟨c, hc, _⟩
      cases hc
    · simpa [pySplitWsAux, List.isEmpty_iff] using fun hcon => h hcon
  | cons c cs ih =>
    intro acc h
    by_cases hws : isWs c
    · by_cases hacc : acc.isEmpty
      · have hcs : hasNonWs cs := by
          rcases h with ⟨d, hd, hdw⟩ | h
          · rcases List.mem_cons.1 hd with rfl | hd
            · exact absurd hws (by simp [hdw])
            · exact Or.inl ⟨d, hd, hdw⟩ |>.elim (fun x => x) (fun x => x)
          · exact absurd (List.isEmpty_iff.1 hacc) h
        simpa [pySplitWsAux, hws, hacc] using ih [] (Or.inl hcs)
      · simp [pySplitWsAux, hws, hacc]
    · simpa [pySplitWsAux, hws] using ih (c :: acc) (Or.inr (by simp))

theorem pySplitWs_ne_nil (s : PyStr) (h : hasNonWs s) : pySplitWs s ≠ [] :=
  pySplitWsAux_ne_nil s [] (Or.inl h)

theorem mem_joinSpace {parts : List PyStr} {s : PyStr} (hs : s ∈ parts) {c : Char}
    (hc : c ∈ s) : c ∈ joinSpace parts := by
  induction parts with
  | nil => cases hs
  | cons p ps ih =>
    cases ps with
    | nil =>
      rcases List.mem_cons.1 hs with rfl | hs
      · simpa [joinSpace] using hc
      · cases hs
    | cons q qs =>
      rw [joinSpace]
      rcases List.mem_cons.1 hs with rfl | hs
      · exact List.mem_append_left _ hc
      · exact List.mem_append_right _ (List.mem_cons_of_mem _ (ih hs))

theorem hasNonWs_joinSpace {parts : List PyStr} {s : PyStr} (hs : s ∈ parts)
    (h : hasNonWs s) : hasNonWs (joinSpace parts) := by
  rcases h with ⟨c, hc, hcw⟩
  exact ⟨c, mem_joinSpace hs hc, hcw⟩

theorem takeRight_subset (n : Nat) (l : List α) : takeRight n l ⊆ l :=
  (List.drop_sublist _ _).subset

theorem takeRight_length (n : Nat) (l : List α) : (takeRight n l).length = min n l.length := by
  simp only [takeRight, List.length_drop]
  omega

theorem takeRight_ne_nil {n : Nat} {l : List α} (h : l ≠ []) (hn : 0 < n) :
    takeRight n l ≠ [] := by
  have hl : 0 < l.length := List.length_pos.2 h
  have : 0 < (takeRight n l).length := by
    rw [takeRight_length]
    omega
  exact List.ne_nil_of_length_pos this

/-! ### Chunker invariants -/

/-- Relation between two consecutively emitted chunks: the later one's
overlap prefix is the trailing `min(CHUNK_OVERLAP // 5, ...)`-word window of
the earlier one's text, and its text is that prefix, one space, and its core
content. -/
def chunkRel (a b : Chunk) : Prop :=
  b.overlapWords =
    takeRight (min (Config.CHUNK_OVERLAP / 5) (pySplitWs a.text).length) (pySplitWs a.text) ∧
  b.text = joinSpace b.overlapWords ++ ' ' :: joinSpace b.coreSentences

/-- Invariant of the emitted chunk list: texts contain printable content,
core sizes obey the accumulation bound, and consecutive chunks are linked by
the overlap rule. -/
def chunkListInv (l : List Chunk) : Prop :=
  (∀ c ∈ l, hasNonWs c.text) ∧
  (∀ c ∈ l, (c.coreSentences.map List.length).sum ≤ Config.CHUNK_SIZE ∨
    c.coreSentences.length ≤ 3) ∧
  List.Chain' chunkRel l

/-- Invariant of the whole loop state of `smart_chunk_text`. -/
def chunkStateInv (st : ChunkState) : Prop :=
  (∀ s ∈ st.current_chunk, hasNonWs s) ∧
  st.current_length = (st.current_chunk.map List.length).sum ∧
  ((st.current_chunk.map List.length).sum ≤ Config.CHUNK_SIZE ∨
    st.current_chunk.length ≤ 3) ∧
  chunkListInv st.chunks

theorem mkChunk_coreSentences (chunks : List Chunk) (curr : List PyStr) (source : PyStr) :
    (mkChunk chunks curr source).coreSentences = curr := by
  rw [mkChunk]
  split <;> rfl

theorem mkChunk_chunk_id (chunks : List Chunk) (curr : List PyStr) (source : PyStr) :
    (mkChunk chunks curr source).chunk_id = chunks.length := by
  rw [mkChunk]
  split <;> rfl

theorem mkChunk_text_hasNonWs {curr : List PyStr} (chunks : List Chunk) (source : PyStr)
    (h : ∃ s ∈ curr, hasNonWs s) : hasNonWs (mkChunk chunks curr source).text := by
  rcases h with ⟨s, hs, hsw⟩
  have hcore : hasNonWs (joinSpace curr) := hasNonWs_joinSpace hs hsw
  rcases hcore with ⟨c, hc, hcw⟩
  rw [mkChunk]
  split
  · exact ⟨c, hc, hcw⟩
  · exact ⟨c, List.mem_append_right _ (List.mem_cons_of_mem _ hc), hcw⟩

theorem mkChunk_rel {chunks : List Chunk} (curr : List PyStr) (source : PyStr)
    (h : chunks ≠ []) : chunkRel (chunks.getLast h) (mkChunk chunks curr source) := by
  have hlast : chunks.getLastD default = chunks.getLast h := by
    rw [List.getLastD_eq_getLast?, List.getLast?_eq_getLast chunks h]
    rfl
  have hne : ¬(chunks.isEmpty ∨ Config.CHUNK_OVERLAP = 0) := by
    simp [List.isEmpty_iff, h, Config.CHUNK_OVERLAP]
  rw [chunkRel, mkChunk]
  rw [if_neg hne]
  rw [hlast]
  exact ⟨rfl, rfl⟩

theorem chain'_append_singleton {R : α → α → Prop} {l : List α} {x : α}
    (hl : List.Chain' R l) (hx : ∀ h : l ≠ [], R (l.getLast h) x) :
    List.Chain' R (l ++ [x]) := by
  rw [List.chain'_append]
  refine ⟨hl, List.chain'_singleton x, ?_⟩
  intro a ha b hb
  have hne : l ≠ [] := by
    intro hcon
    subst hcon
    simp at ha
  have ha' : a = l.getLast hne := by
    rw [List.getLast?_eq_getLast l hne] at ha
    simpa using ha.symm
  have hb' : b = x := by simpa using hb.symm
  rw [ha', hb']
  exact hx hne

theorem chunkListInv_append {chunks : List Chunk} {curr : List PyStr} (source : PyStr)
    (hinv : chunkListInv chunks) (hcur : ∀ s ∈ curr, hasNonWs s) (hne : curr ≠ [])
    (hbound : (curr.map List.length).sum ≤ Config.CHUNK_SIZE ∨ curr.length ≤ 3) :
    chunkListInv (chunks ++ [mkChunk chunks curr source]) := by
  obtain ⟨hw, hb, hchain⟩ := hinv
  refine ⟨?_, ?_, ?_⟩
  · intro c hc
    rcases List.mem_append.1 hc with hc | hc
    · exact hw c hc
    · have : c = mkChunk chunks curr source := by simpa using hc
      subst this
      have hhead : curr.head hne ∈ curr := List.head_mem hne
      exact mkChunk_text_hasNonWs chunks source ⟨curr.head hne, hhead, hcur _ hhead⟩
  · intro c hc
    rcases List.mem_append.1 hc with hc | hc
    · exact hb c hc
    · have : c = mkChunk chunks curr source := by simpa using hc
      subst this
      rw [mkChunk_coreSentences]
      exact hbound
  · exact chain'_append_singleton hchain fun h => mkChunk_rel curr source h

theorem chunkStep_of_skip {sentence : PyStr} (source : PyStr) (st : ChunkState)
    (h : (pyStrip sentence).isEmpty) : chunkStep source st sentence = st := by
  simp [chunkStep, h]

theorem chunkStep_of_close {sentence : PyStr} (source : PyStr) (st : ChunkState)
    (h1 : ¬ (pyStrip sentence).isEmpty)
    (h2 : Config.CHUNK_SIZE < st.current_length + (pyStrip sentence).length ∧
      ¬ st.current_chunk.isEmpty) :
    chunkStep source st sentence =
      { chunks := st.chunks ++ [mkChunk st.chunks st.current_chunk source],
        current_chunk := takeRight (min 2 st.current_chunk.length) st.current_chunk ++
          [pyStrip sentence],
        current_length :=
          (((takeRight (min 2 st.current_chunk.length) st.current_chunk ++
            [pyStrip sentence]).map List.length).sum) } := by
  simp only [chunkStep]
  rw [if_neg h1, if_pos h2, if_pos (by decide : (0:Nat) < Config.CHUNK_OVERLAP)]

theorem chunkStep_of_append {sentence : PyStr} (source : PyStr) (st : ChunkState)
    (h1 : ¬ (pyStrip sentence).isEmpty)
    (h2 : ¬ (Config.CHUNK_SIZE < st.current_length + (pyStrip sentence).length ∧
      ¬ st.current_chunk.isEmpty)) :
    chunkStep source st sentence =
      { chunks := st.chunks,
        current_chunk := st.current_chunk ++ [pyStrip sentence],
        current_length := st.current_length + (pyStrip sentence).length } := by
  simp only [chunkStep]
  rw [if_neg h1, if_neg h2]

theorem chunkStateInv_step {sentence : PyStr} (source : PyStr) (st : ChunkState)
    (hinv : chunkStateInv st) : chunkStateInv (chunkStep source st sentence) := by
  obtain ⟨hw, hlen, hbound, hchunks⟩ := hinv
  by_cases h1 : (pyStrip sentence).isEmpty
  · rw [chunkStep_of_skip source st h1]
    exact ⟨hw, hlen, hbound, hchunks⟩
  · have hsw : hasNonWs (pyStrip sentence) :=
      pyStrip_hasNonWs sentence (by simpa [List.isEmpty_iff] using h1)
    by_cases h2 : Config.CHUNK_SIZE < st.current_length + (pyStrip sentence).length ∧
        ¬ st.current_chunk.isEmpty
    · rw [chunkStep_of_close source st h1 h2]
      have hcurne : st.current_chunk ≠ [] := by
        simpa [List.isEmpty_iff] using h2.2
      refine ⟨?_, rfl, ?_, ?_⟩
      · intro s hs
        rcases List.mem_append.1 hs with hs | hs
        · exact hw s (takeRight_subset _ _ hs)
        · have : s = pyStrip sentence := by simpa using hs
          subst this
          exact hsw
      · right
        have := takeRight_length (min 2 st.current_chunk.length) st.current_chunk
        simp only [List.length_append, List.length_singleton]
        omega
      · exact chunkListInv_append source hchunks hw hcurne hbound
    · rw [chunkStep_of_append source st h1 h2]
      refine ⟨?_, ?_, ?_, hchunks⟩
      · intro s hs
        rcases List.mem_append.1 hs with hs | hs
        · exact hw s hs
        · have : s = pyStrip sentence := by simpa using hs
          subst this
          exact hsw
      · simp [hlen]
      · by_cases hcur : st.current_chunk.isEmpty
        · right
          have : st.current_chunk = [] := List.isEmpty_iff.1 hcur
          simp [this]
        · left
          have hle : st.current_length + (pyStrip sentence).length ≤ Config.CHUNK_SIZE := by
            rcases not_and_or.1 h2 with h | h
            · omega
            · exact absurd (not_not.1 h) hcur
          simp only [List.map_append, List.sum_append]
          simp only [List.map_singleton, List.sum_singleton]
          omega

theorem chunkStateInv_foldl (source : PyStr) :
    ∀ (sentences : List PyStr) (st : ChunkState), chunkStateInv st →
      chunkStateInv (List.foldl (chunkStep source) st sentences) := by
  intro sentences
  induction sentences with
  | nil => intro st h; exact h
  | cons a rest ih =>
    intro st h
    exact ih (chunkStep source st a) (chunkStateInv_step source st h)

theorem chunkStateInv_init : chunkStateInv { chunks := [], current_chunk := [], current_length := 0 } := by
  refine ⟨?_, rfl, ?_, ?_, ?_, ?_⟩
  · intro s hs; cases hs
  · left; simp [Config.CHUNK_SIZE]
  · intro c hc; cases hc
  · intro c hc; cases hc
  · exact List.chain'_nil

theorem chunkListInv_flushChunks {st : ChunkState} (source : PyStr)
    (hinv : chunkStateInv st) : chunkListInv (flushChunks st source) := by
  obtain ⟨hw, _, hbound, hchunks⟩ := hinv
  rw [flushChunks]
  by_cases hcur : st.current_chunk.isEmpty
  · rw [if_pos hcur]
    exact hchunks
  · rw [if_neg hcur]
    exact chunkListInv_append source hchunks hw (by simpa [List.isEmpty_iff] using hcur) hbound

theorem chunkListInv_smart_chunk_text (sentences : List PyStr) (source : PyStr) :
    chunkListInv (smart_chunk_text sentences source) :=
  chunkListInv_flushChunks source (chunkStateInv_foldl source sentences _ chunkStateInv_init)

/-! ### Coverage of input sentences by chunk cores -/

theorem chunkStep_chunks_mono {sentence : PyStr} (source : PyStr) (st : ChunkState)
    {c : Chunk} (hc : c ∈ st.chunks) : c ∈ (chunkStep source st sentence).chunks := by
  by_cases h1 : (pyStrip sentence).isEmpty
  · rw [chunkStep_of_skip source st h1]
    exact hc
  · by_cases h2 : Config.CHUNK_SIZE < st.current_length + (pyStrip sentence).length ∧
        ¬ st.current_chunk.isEmpty
    · rw [chunkStep_of_close source st h1 h2]
      exact List.mem_append_left _ hc
    · rw [chunkStep_of_append source st h1 h2]
      exact hc

theorem foldl_chunks_mono (source : PyStr) :
    ∀ (sentences : List PyStr) (st : ChunkState) {c : Chunk}, c ∈ st.chunks →
      c ∈ (List.foldl (chunkStep source) st sentences).chunks := by
  intro sentences
  induction sentences with
  | nil => intro st c hc; exact hc
  | cons a rest ih =>
    intro st c hc
    exact ih (chunkStep source st a) (chunkStep_chunks_mono source st hc)

theorem mem_flushChunks {st : ChunkState} (source : PyStr) {c : Chunk}
    (hc : c ∈ st.chunks) : c ∈ flushChunks st source := by
  rw [flushChunks]
  split
  · exact hc
  · exact List.mem_append_left _ hc

theorem current_chunk_fate (source : PyStr) :
    ∀ (sentences : List PyStr) (st : ChunkState) {x : PyStr}, x ∈ st.current_chunk →
      ∃ c ∈ flushChunks (List.foldl (chunkStep source) st sentences) source,
        x ∈ c.coreSentences := by
  intro sentences
  induction sentences with
  | nil =>
    intro st x hx
    have hne : ¬ st.current_chunk.isEmpty := by
      simp only [List.isEmpty_iff]
      intro hcon
      rw [hcon] at hx
      cases hx
    refine ⟨mkChunk st.chunks st.current_chunk source, ?_, ?_⟩
    · rw [List.foldl_nil, flushChunks, if_neg hne]
      exact List.mem_append_right _ (List.mem_singleton.2 rfl)
    · rw [mkChunk_coreSentences]
      exact hx
  | cons a rest ih =>
    intro st x hx
    rw [List.foldl_cons]
    by_cases h1 : (pyStrip a).isEmpty
    · rw [chunkStep_of_skip source st h1]
      exact ih st hx
    · by_cases h2 : Config.CHUNK_SIZE < st.current_length + (pyStrip a).length ∧
          ¬ st.current_chunk.isEmpty
      · refine ⟨mkChunk st.chunks st.current_chunk source, ?_, ?_⟩
        · refine mem_flushChunks source (foldl_chunks_mono source rest _ ?_)
          rw [chunkStep_of_close source st h1 h2]
          exact List.mem_append_right _ (List.mem_singleton.2 rfl)
        · rw [mkChunk_coreSentences]
          exact hx
      · have hx' : x ∈ (chunkStep source st a).current_chunk := by
          rw [chunkStep_of_append source st h1 h2]
          exact List.mem_append_left _ hx
        exact ih (chunkStep source st a) hx'

theorem covered_from (source : PyStr) :
    ∀ (sentences : List PyStr) (st : ChunkState) (s : PyStr), s ∈ sentences →
      ¬ (pyStrip s).isEmpty →
      ∃ c ∈ flushChunks (List.foldl (chunkStep source) st sentences) source,
        pyStrip s ∈ c.coreSentences := by
  intro sentences
  induction sentences with
  | nil => intro st s hs; cases hs
  | cons a rest ih =>
    intro st s hs hne
    rcases List.mem_cons.1 hs with rfl | hs
    · rw [List.foldl_cons]
      have hmem : pyStrip s ∈ (chunkStep source st s).current_chunk := by
        by_cases h2 : Config.CHUNK_SIZE < st.current_length + (pyStrip s).length ∧
            ¬ st.current_chunk.isEmpty
        · rw [chunkStep_of_close source st hne h2]
          exact List.mem_append_right _ (List.mem_singleton.2 rfl)
        · rw [chunkStep_of_append source st hne h2]
          exact List.mem_append_right _ (List.mem_singleton.2 rfl)
      exact current_chunk_fate source rest (chunkStep source st s) hmem
    · rw [List.foldl_cons]
      exact ih (chunkStep source st a) s hs hne

/-! ### Claims about the chunker -/

/-- C1 (amended): every sentence of the input that is non-blank after
stripping appears in the core content (`current_chunk` at closing time) of at
least one chunk produced by `smart_chunk_text` — no sentence is dropped.
(The "exactly once" half of the original claim fails: continuation seeding
copies up to two closing sentences into the next chunk's core, see the
counterexample.) -/
theorem claim_C1_sentence_coverage (sentences : List PyStr) (source : PyStr) (s : PyStr)
    (hs : s ∈ sentences) (hne : pyStrip s ≠ []) :
    ∃ c ∈ smart_chunk_text sentences source, pyStrip s ∈ c.coreSentences := by
  have h : ¬ (pyStrip s).isEmpty := by simpa [List.isEmpty_iff] using hne
  exact covered_from source sentences _ s hs h

/-- Witness for C1 at a concrete input: the single sentence "hi" ends up in
the single chunk's core. -/
theorem claim_C1_witness :
    ((['h', 'i'] : PyStr) ∈ ([['h', 'i']] : List PyStr) ∧ pyStrip ['h', 'i'] ≠ []) ∧
    ∃ c ∈ smart_chunk_text [['h', 'i']] ['s'], pyStrip ['h', 'i'] ∈ c.coreSentences :=
  ⟨⟨by decide, by decide⟩,
    claim_C1_sentence_coverage [['h', 'i']] ['s'] ['h', 'i'] (by decide) (by decide)⟩

set_option maxRecDepth 10000 in
/-- C1 counterexample: on three 401-character sentences the continuation
seeding copies the first sentence into the cores of chunk 0 and chunk 1, so
the cores do not cover each input sentence exactly once (the first sentence
appears in the core content of two distinct chunks). -/
theorem claim_C1_counterexample :
    (List.replicate 401 'a' ∈
      ((smart_chunk_text [List.replicate 401 'a', List.replicate 401 'b',
        List.replicate 401 'c'] ['s']).getD 0 default).coreSentences) ∧
    (List.replicate 401 'a' ∈
      ((smart_chunk_text [List.replicate 401 'a', List.replicate 401 'b',
        List.replicate 401 'c'] ['s']).getD 1 default).coreSentences) ∧
    ((smart_chunk_text [List.replicate 401 'a', List.replicate 401 'b',
        List.replicate 401 'c'] ['s']).getD 0 default) ≠
      ((smart_chunk_text [List.replicate 401 'a', List.replicate 401 'b',
        List.replicate 401 'c'] ['s']).getD 1 default) ∧
    (smart_chunk_text [List.replicate 401 'a', List.replicate 401 'b',
      List.replicate 401 'c'] ['s']).length = 3 := by
  decide

/-- C9 (amended): every chunk's core content obeys the accumulation bound —
either the total character count of its sentences (joining spaces not
counted, as the code tracks `current_length`) is at most
`CHUNK_SIZE`, or the core consists of at most 3 sentences (a single oversized
sentence, or a continuation seed of up to two carried-over sentences plus the
triggering sentence, that already exceeds the target). -/
theorem claim_C9_core_bound (sentences : List PyStr) (source : PyStr) (c : Chunk)
    (hc : c ∈ smart_chunk_text sentences source) :
    (c.coreSentences.map List.length).sum ≤ Config.CHUNK_SIZE ∨ c.coreSentences.length ≤ 3 :=
  (chunkListInv_smart_chunk_text sentences source).2.1 c hc

/-- Witness for C9 at a concrete input. -/
theorem claim_C9_witness :
    (({ text := ['h', 'i'], source := ['s'], chunk_id := 0, coreSentences := [['h', 'i']],
        overlapWords := [] } : Chunk) ∈ smart_chunk_text [['h', 'i']] ['s']) ∧
    ((([['h', 'i']] : List PyStr).map List.length).sum ≤ Config.CHUNK_SIZE ∨
      ([['h', 'i']] : List PyStr).length ≤ 3) :=
  ⟨by decide, claim_C9_core_bound [['h', 'i']] ['s']
    { text := ['h', 'i'], source := ['s'], chunk_id := 0, coreSentences := [['h', 'i']],
      overlapWords := [] } (by decide)⟩

set_option maxRecDepth 10000 in
/-- C9 counterexample: on three 401-character sentences, chunk 1's core
content is two sentences joined to 803 characters, exceeding the target size
800 without being a single long sentence — the claim's character bound on
core content fails. -/
theorem claim_C9_counterexample :
    ((smart_chunk_text [List.replicate 401 'a', List.replicate 401 'b',
      List.replicate 401 'c'] ['s']).getD 1 default).coreText.length = 803 ∧
    ((smart_chunk_text [List.replicate 401 'a', List.replicate 401 'b',
      List.replicate 401 'c'] ['s']).getD 1 default).coreSentences.length = 2 ∧
    Config.CHUNK_SIZE = 800 := by
  decide

/-- C8 (confirmed): every chunk after the first in a document's emission
order carries a non-empty overlap prefix: its `overlap_words` are exactly the
trailing `min(CHUNK_OVERLAP // 5, word count)` words of the immediately
preceding emitted chunk's text, and they are prepended (with one space) to
its core content.  The quantification over every adjacent pair includes the
final emitted chunk, which receives the same prefix rule. -/
theorem claim_C8_overlap_prefix (sentences : List PyStr) (source : PyStr) (i : Nat)
    (hi : i + 1 < (smart_chunk_text sentences source).length) :
    ((smart_chunk_text sentences source).getD (i + 1) default).overlapWords ≠ [] ∧
    ((smart_chunk_text sentences source).getD (i + 1) default).overlapWords =
      takeRight (min (Config.CHUNK_OVERLAP / 5)
          (pySplitWs ((smart_chunk_text sentences source).getD i default).text).length)
        (pySplitWs ((smart_chunk_text sentences source).getD i default).text) ∧
    ((smart_chunk_text sentences source).getD (i + 1) default).text =
      joinSpace ((smart_chunk_text sentences source).getD (i + 1) default).overlapWords ++
        ' ' :: ((smart_chunk_text sentences source).getD (i + 1) default).coreText := by
  obtain ⟨hw, _, hchain⟩ := chunkListInv_smart_chunk_text sentences source
  have h1 : i < (smart_chunk_text sentences source).length - 1 := by omega
  have hrel := List.chain'_iff_get.1 hchain i h1
  have hilt : i < (smart_chunk_text sentences source).length := by omega
  rw [List.getD_eq_getElem _ _ hi, List.getD_eq_getElem _ _ hilt]
  rw [List.get_eq_getElem, List.get_eq_getElem] at hrel
  obtain ⟨hov, htext⟩ := hrel
  have hpw : pySplitWs ((smart_chunk_text sentences source)[i].text) ≠ [] :=
    pySplitWs_ne_nil _ (hw _ (List.getElem_mem hilt))
  refine ⟨?_, hov, htext⟩
  rw [hov]
  refine takeRight_ne_nil hpw ?_
  refine lt_min_iff.2 ⟨by decide, ?_⟩
  exact List.length_pos.2 hpw

set_option maxRecDepth 10000 in
/-- Witness for C8 at a concrete input: an 801-character sentence followed by
a 1-character sentence splits into two chunks, and chunk 1 carries the overlap
prefix drawn from chunk 0. -/
theorem claim_C8_witness :
    (0 + 1 < (smart_chunk_text [List.replicate 801 'a', ['b']] ['s']).length) ∧
    (((smart_chunk_text [List.replicate 801 'a', ['b']] ['s']).getD 1 default).overlapWords ≠ [] ∧
    ((smart_chunk_text [List.replicate 801 'a', ['b']] ['s']).getD 1 default).overlapWords =
      takeRight (min (Config.CHUNK_OVERLAP / 5)
          (pySplitWs ((smart_chunk_text [List.replicate 801 'a', ['b']] ['s']).getD 0
            default).text).length)
        (pySplitWs ((smart_chunk_text [List.replicate 801 'a', ['b']] ['s']).getD 0
          default).text) ∧
    ((smart_chunk_text [List.replicate 801 'a', ['b']] ['s']).getD 1 default).text =
      joinSpace ((smart_chunk_text [List.replicate 801 'a', ['b']] ['s']).getD 1
          default).overlapWords ++
        ' ' :: ((smart_chunk_text [List.replicate 801 'a', ['b']] ['s']).getD 1
          default).coreText) :=
  ⟨by decide, claim_C8_overlap_prefix [List.replicate 801 'a', ['b']] ['s'] 0 (by decide)⟩

/-! ### The argsort model and top-K selection -/

instance argsortLeTotal (scores : List ℚ) : IsTotal Nat (argsortLe scores) := by
  constructor
  intro i j
  rcases lt_trichotomy (scores.getD i 0) (scores.getD j 0) with h | h | h
  · exact Or.inl (Or.inl h)
  · rcases Nat.le_total i j with hij | hji
    · exact Or.inl (Or.inr ⟨h, hij⟩)
    · exact Or.inr (Or.inr ⟨h.symm, hji⟩)
  · exact Or.inr (Or.inl h)

instance argsortLeTrans (scores : List ℚ) : IsTrans Nat (argsortLe scores) := by
  constructor
  intro a b c hab hbc
  rcases hab with hab | ⟨hab, hab'⟩
  · rcases hbc with hbc | ⟨hbc, _⟩
    · exact Or.inl (hab.trans hbc)
    · exact Or.inl (hbc ▸ hab)
  · rcases hbc with hbc | ⟨hbc, hbc'⟩
    · exact Or.inl (hab ▸ hbc)
    · exact Or.inr ⟨hab.trans hbc, hab'.trans hbc'⟩

theorem argsort_perm (scores : List ℚ) :
    (argsort scores).Perm (List.range scores.length) :=
  List.perm_insertionSort _ _

theorem argsort_length (scores : List ℚ) : (argsort scores).length = scores.length :=
  (argsort_perm scores).length_eq.trans (List.length_range _)

theorem argsort_nodup (scores : List ℚ) : (argsort scores).Nodup :=
  ((argsort_perm scores).nodup_iff).2 (List.nodup_range _)

theorem mem_argsort (scores : List ℚ) {i : Nat} : i ∈ argsort scores ↔ i < scores.length := by
  rw [(argsort_perm scores).mem_iff, List.mem_range]

theorem argsort_sorted (scores : List ℚ) :
    List.Sorted (argsortLe scores) (argsort scores) :=
  List.sorted_insertionSort _ _

theorem selectTopK_length (scores : List ℚ) :
    (selectTopK scores).length = min Config.SEARCH_RESULTS scores.length := by
  rw [selectTopK, List.length_reverse, takeRight_length, argsort_length]

theorem mem_selectTopK (scores : List ℚ) {i : Nat} (hi : i ∈ selectTopK scores) :
    i < scores.length := by
  rw [selectTopK, List.mem_reverse] at hi
  exact (mem_argsort scores).1 (takeRight_subset _ _ hi)

theorem selectTopK_sorted (scores : List ℚ) :
    List.Pairwise
      (fun i j => scores.getD j 0 < scores.getD i 0 ∨
        (scores.getD j 0 = scores.getD i 0 ∧ j < i))
      (selectTopK scores) := by
  have hd : List.Pairwise (argsortLe scores) (takeRight Config.SEARCH_RESULTS (argsort scores)) :=
    (argsort_sorted scores).sublist (List.drop_sublist _ _)
  have hnd : (takeRight Config.SEARCH_RESULTS (argsort scores)).Nodup :=
    (argsort_nodup scores).sublist (List.drop_sublist _ _)
  have hrev : List.Pairwise (fun i j => argsortLe scores j i) (selectTopK scores) :=
    List.pairwise_reverse.2 hd
  have hne : List.Pairwise (fun i j : Nat => i ≠ j) (selectTopK scores) := by
    rw [selectTopK]
    exact List.nodup_reverse.2 hnd
  refine (hrev.and hne).imp ?_
  rintro a b ⟨hle, hab⟩
  rcases hle with h | ⟨heq, hba⟩
  · exact Or.inl h
  · exact Or.inr ⟨heq, lt_of_le_of_ne hba (Ne.symm hab)⟩

theorem selectTopK_top (scores : List ℚ) {i j : Nat} (hi : i ∈ selectTopK scores)
    (hj : j < scores.length) (hnj : j ∉ selectTopK scores) :
    scores.getD j 0 < scores.getD i 0 ∨
      (scores.getD j 0 = scores.getD i 0 ∧ j < i) := by
  have hsplit :
      (argsort scores).take ((argsort scores).length - Config.SEARCH_RESULTS) ++
        takeRight Config.SEARCH_RESULTS (argsort scores) = argsort scores :=
    List.take_append_drop _ _
  have hi' : i ∈ takeRight Config.SEARCH_RESULTS (argsort scores) := by
    rw [selectTopK, List.mem_reverse] at hi
    exact hi
  have hj' : j ∈ argsort scores := (mem_argsort scores).2 hj
  have hjtake :
      j ∈ (argsort scores).take ((argsort scores).length - Config.SEARCH_RESULTS) := by
    rw [← hsplit] at hj'
    rcases List.mem_append.1 hj' with h | h
    · exact h
    · exact absurd (by rw [selectTopK, List.mem_reverse]; exact h) hnj
  have hsorted : List.Pairwise (argsortLe scores)
      ((argsort scores).take ((argsort scores).length - Config.SEARCH_RESULTS) ++
        takeRight Config.SEARCH_RESULTS (argsort scores)) := by
    rw [hsplit]
    exact argsort_sorted scores
  have hcross := (List.pairwise_append.1 hsorted).2.2 j hjtake i hi'
  have hnodup : ((argsort scores).take ((argsort scores).length - Config.SEARCH_RESULTS) ++
      takeRight Config.SEARCH_RESULTS (argsort scores)).Nodup := by
    rw [hsplit]
    exact argsort_nodup scores
  have hdisj := (List.nodup_append.1 hnodup).2.2
  have hji : j ≠ i := by
    intro hcon
    exact hdisj hjtake (hcon ▸ hi')
  rcases hcross with h | ⟨heq, hle⟩
  · exact Or.inl h
  · exact Or.inr ⟨heq, lt_of_le_of_ne hle hji⟩

theorem hybrid_search_eq {oracles : SearchOracles} {st : SearchState} {question : PyStr}
    {embs : List Vec} {q : Vec}
    (hemb : st.chunk_embeddings = some embs)
    (hq : questionEmbedding oracles question = some q)
    (hne : st.text_chunks ≠ [])
    (hsem : (semanticScores oracles q embs).length = st.text_chunks.length)
    (hkw : (keywordScores oracles st question).length = st.text_chunks.length) :
    hybrid_search oracles st question =
      ((selectTopK (combinedScores (semanticScores oracles q embs)
          (keywordScores oracles st question))).map
        (scoredChunkAt st.text_chunks (semanticScores oracles q embs)
          (keywordScores oracles st question)
          (combinedScores (semanticScores oracles q embs)
            (keywordScores oracles st question)))).filter
        (fun c => decide (0.15 < c.combined_score)) := by
  unfold hybrid_search
  simp only [hemb, hq]
  rw [if_neg (by simpa [List.length_eq_zero] using hne)]
  rw [if_neg (by push_neg; exact ⟨hsem, hkw⟩)]

theorem hybrid_search_eq_nil_of_none (oracles : SearchOracles) (st : SearchState)
    (question : PyStr) (h : st.chunk_embeddings = none) :
    hybrid_search oracles st question = [] := by
  unfold hybrid_search
  simp only [h]

theorem hybrid_search_eq_nil_of_no_chunks (oracles : SearchOracles) (st : SearchState)
    (question : PyStr) (h : st.text_chunks = []) :
    hybrid_search oracles st question = [] := by
  unfold hybrid_search
  cases hemb : st.chunk_embeddings with
  | none => rfl
  | some embs => simp [h]

theorem hybrid_search_eq_nil_of_encode_fail (oracles : SearchOracles) (st : SearchState)
    (question : PyStr) (h : questionEmbedding oracles question = none) :
    hybrid_search oracles st question = [] := by
  unfold hybrid_search
  cases hemb : st.chunk_embeddings with
  | none => rfl
  | some embs => simp [h]

theorem hybrid_search_eq_nil_of_mismatch (oracles : SearchOracles) (st : SearchState)
    (question : PyStr) (embs : List Vec) (q : Vec)
    (hemb : st.chunk_embeddings = some embs)
    (hq : questionEmbedding oracles question = some q)
    (h : (semanticScores oracles q embs).length ≠ st.text_chunks.length ∨
      (keywordScores oracles st question).length ≠ st.text_chunks.length) :
    hybrid_search oracles st question = [] := by
  unfold hybrid_search
  simp only [hemb, hq]
  by_cases hn : st.text_chunks.length = 0
  · rw [if_pos hn]
  · rw [if_neg hn, if_pos h]

/-! ### Claims about hybrid retrieval -/

/-- Concrete two-chunk fixture for instantiating the retrieval theorems. -/
def exChunk (i : Nat) : Chunk :=
  { text := ['x'], source := ['s'], chunk_id := i, coreSentences := [['x']], overlapWords := [] }

/-- Oracle fixture: every encoding succeeds and every semantic similarity is
`1` (the maximal cosine), keyword similarity `0`. -/
def exOracles : SearchOracles :=
  { encode := fun _ _ => some [1], cosSimSem := fun _ _ => 1, cosSimKw := fun _ _ => 0,
    transform := fun _ _ => [] }

/-- Search-state fixture: two chunks with embeddings, no TF-IDF index. -/
def exState : SearchState :=
  { text_chunks := [exChunk 0, exChunk 1], chunk_embeddings := some [[1], [1]],
    tfidf_vectorizer := none, tfidf_matrix := none }

/-- C2 (amended): on the successful path, `hybrid_search` computes the top-K
selection (`K = SEARCH_RESULTS`, or all chunks when fewer exist), sorted by
descending combined score with ties between equal scores broken by original
chunk order reversed — later chunk index first, because the code reverses an
ascending (stable) argsort — and returns those selected chunks that clear the
relevance floor, in that order. -/
theorem claim_C2_selection (oracles : SearchOracles) (st : SearchState) (question : PyStr)
    (embs : List Vec) (q : Vec) (combined : List ℚ)
    (hemb : st.chunk_embeddings = some embs)
    (hq : questionEmbedding oracles question = some q)
    (hne : st.text_chunks ≠ [])
    (hsem : (semanticScores oracles q embs).length = st.text_chunks.length)
    (hkw : (keywordScores oracles st question).length = st.text_chunks.length)
    (hcomb : combined = combinedScores (semanticScores oracles q embs)
      (keywordScores oracles st question)) :
    hybrid_search oracles st question =
      ((selectTopK combined).map
        (scoredChunkAt st.text_chunks (semanticScores oracles q embs)
          (keywordScores oracles st question) combined)).filter
        (fun c => decide (0.15 < c.combined_score)) ∧
    combined.length = st.text_chunks.length ∧
    (selectTopK combined).length = min Config.SEARCH_RESULTS st.text_chunks.length ∧
    List.Pairwise
      (fun i j => combined.getD j 0 < combined.getD i 0 ∨
        (combined.getD j 0 = combined.getD i 0 ∧ j < i)) (selectTopK combined) ∧
    (∀ i ∈ selectTopK combined, ∀ j < st.text_chunks.length, j ∉ selectTopK combined →
      combined.getD j 0 < combined.getD i 0 ∨
        (combined.getD j 0 = combined.getD i 0 ∧ j < i)) := by
  subst hcomb
  have hclen : (combinedScores (semanticScores oracles q embs)
      (keywordScores oracles st question)).length = st.text_chunks.length := by
    simp [combinedScores, List.length_zipWith, hsem, hkw]
  refine ⟨hybrid_search_eq hemb hq hne hsem hkw, hclen, ?_, selectTopK_sorted _, ?_⟩
  · rw [selectTopK_length, hclen]
  · intro i hi j hj hnj
    exact selectTopK_top _ hi (by rw [hclen]; exact hj) hnj

/-- C2 counterexample: both chunks obtain the same combined score `0.7`, yet
`hybrid_search` returns chunk 1 before chunk 0 — equal scores are tied in
reverse original chunk order (later chunk index first), not by earlier chunk
index first as the claim's stable-sort reading states. -/
theorem claim_C2_counterexample :
    (hybrid_search exOracles exState ['x']).map (fun c => c.chunk.chunk_id) = [1, 0] ∧
    (hybrid_search exOracles exState ['x']).map (fun c => c.combined_score) =
      [7 / 10, 7 / 10] := by
  constructor <;>
    norm_num [hybrid_search, exOracles, exState, exChunk, questionEmbedding, semanticScores,
      keywordScores, combinedScores, selectTopK, argsort, argsortLe, takeRight, scoredChunkAt,
      Config.SEARCH_RESULTS, Config.MAX_RETRIES, List.range_succ, List.findSome?]

/-- Witness for C2 at the concrete fixture. -/
theorem claim_C2_witness :
    (exState.chunk_embeddings = some [[1], [1]] ∧
      questionEmbedding exOracles ['x'] = some [1] ∧ exState.text_chunks ≠ []) ∧
    hybrid_search exOracles exState ['x'] =
      ((selectTopK (combinedScores (semanticScores exOracles [1] [[1], [1]])
          (keywordScores exOracles exState ['x']))).map
        (scoredChunkAt exState.text_chunks (semanticScores exOracles [1] [[1], [1]])
          (keywordScores exOracles exState ['x'])
          (combinedScores (semanticScores exOracles [1] [[1], [1]])
            (keywordScores exOracles exState ['x'])))).filter
        (fun c => decide (0.15 < c.combined_score)) :=
  ⟨⟨rfl, rfl, by simp [exState]⟩,
    (claim_C2_selection exOracles exState ['x'] [[1], [1]] [1] _ rfl rfl
      (by simp [exState]) rfl rfl rfl).1⟩

/-- C3 (confirmed): on the successful path, each chunk index `i` is scored
from its own rows: `semantic_scores[i]` is the raw cosine similarity between
the encoded query and embedding row `i`, `combined_scores[i]` is `0.7` times
that semantic score rescaled from `[-1, 1]` to `[0, 1]` via `(score + 1) / 2`
plus `0.3` times `keyword_scores[i]`, and `keyword_scores[i]` is the TF-IDF
cosine similarity of the transformed query against TF-IDF row `i` — or `0`
for every chunk when no keyword index is available.  Moreover every chunk
returned by `hybrid_search` is the chunk stored at some index `i` and carries
exactly that row's scores in its `semantic_score`, `keyword_score` and
`combined_score` fields. -/
theorem claim_C3_score_formula (oracles : SearchOracles) (st : SearchState) (question : PyStr)
    (embs : List Vec) (q : Vec)
    (hemb : st.chunk_embeddings = some embs)
    (hq : questionEmbedding oracles question = some q)
    (hsem : (semanticScores oracles q embs).length = st.text_chunks.length)
    (hkw : (keywordScores oracles st question).length = st.text_chunks.length) :
    (∀ i < st.text_chunks.length,
      (semanticScores oracles q embs).getD i 0 = oracles.cosSimSem q (embs.getD i []) ∧
      (combinedScores (semanticScores oracles q embs)
          (keywordScores oracles st question)).getD i 0 =
        0.7 * (((semanticScores oracles q embs).getD i 0 + 1) / 2) +
          0.3 * ((keywordScores oracles st question).getD i 0) ∧
      ((st.tfidf_vectorizer = none ∨ st.tfidf_matrix = none) →
        (keywordScores oracles st question).getD i 0 = 0) ∧
      (∀ v m, st.tfidf_vectorizer = some v → st.tfidf_matrix = some m →
        (keywordScores oracles st question).getD i 0 =
          oracles.cosSimKw (oracles.transform v question) (m.getD i []))) ∧
    (∀ c ∈ hybrid_search oracles st question,
      ∃ i < st.text_chunks.length,
        c.chunk = st.text_chunks.getD i default ∧
        c.semantic_score = (semanticScores oracles q embs).getD i 0 ∧
        c.keyword_score = (keywordScores oracles st question).getD i 0 ∧
        c.combined_score = (combinedScores (semanticScores oracles q embs)
          (keywordScores oracles st question)).getD i 0 ∧
        c.combined_score = 0.7 * ((c.semantic_score + 1) / 2) + 0.3 * c.keyword_score) := by
  have hclen : (combinedScores (semanticScores oracles q embs)
      (keywordScores oracles st question)).length = st.text_chunks.length := by
    simp [combinedScores, List.length_zipWith, hsem, hkw]
  have hrow : ∀ i < st.text_chunks.length,
      (semanticScores oracles q embs).getD i 0 = oracles.cosSimSem q (embs.getD i []) ∧
      (combinedScores (semanticScores oracles q embs)
          (keywordScores oracles st question)).getD i 0 =
        0.7 * (((semanticScores oracles q embs).getD i 0 + 1) / 2) +
          0.3 * ((keywordScores oracles st question).getD i 0) ∧
      ((st.tfidf_vectorizer = none ∨ st.tfidf_matrix = none) →
        (keywordScores oracles st question).getD i 0 = 0) ∧
      (∀ v m, st.tfidf_vectorizer = some v → st.tfidf_matrix = some m →
        (keywordScores oracles st question).getD i 0 =
          oracles.cosSimKw (oracles.transform v question) (m.getD i [])) := by
    intro i hi
    have hsl : i < (semanticScores oracles q embs).length := by
      rw [hsem]; exact hi
    have hkl : i < (keywordScores oracles st question).length := by
      rw [hkw]; exact hi
    have hel : i < embs.length := by
      simpa [semanticScores] using hsl
    have hcl : i < (combinedScores (semanticScores oracles q embs)
        (keywordScores oracles st question)).length := by
      rw [hclen]; exact hi
    refine ⟨?_, ?_, ?_, ?_⟩
    · rw [List.getD_eq_getElem _ _ hsl, List.getD_eq_getElem _ _ hel]
      simp [semanticScores]
    · rw [List.getD_eq_getElem _ _ hcl, List.getD_eq_getElem _ _ hsl,
        List.getD_eq_getElem _ _ hkl]
      simp only [combinedScores]
      rw [List.getElem_zipWith]
    · intro h
      have hrep : keywordScores oracles st question =
          List.replicate st.text_chunks.length 0 := by
        rcases h with h | h
        · simp [keywordScores, h]
        · cases hv : st.tfidf_vectorizer with
          | none => simp [keywordScores, hv]
          | some v => simp [keywordScores, hv, h]
      rw [hrep, List.getD_eq_getElem _ _ (by simpa using hi), List.getElem_replicate]
    · intro v m hv hm
      have hmap : keywordScores oracles st question =
          m.map (oracles.cosSimKw (oracles.transform v question)) := by
        simp [keywordScores, hv, hm]
      have hml : i < m.length := by
        rw [hmap] at hkl
        simpa using hkl
      rw [hmap, List.getD_eq_getElem _ _ (by simpa using hml), List.getElem_map,
        List.getD_eq_getElem _ _ hml]
  refine ⟨hrow, ?_⟩
  intro c hc
  by_cases hch : st.text_chunks = []
  · rw [hybrid_search_eq_nil_of_no_chunks oracles st question hch] at hc
    exact absurd hc (List.not_mem_nil c)
  · rw [hybrid_search_eq hemb hq hch hsem hkw] at hc
    obtain ⟨hmem, _⟩ := List.mem_filter.1 hc
    obtain ⟨idx, hidx, rfl⟩ := List.mem_map.1 hmem
    have hlt : idx < st.text_chunks.length := by
      rw [← hclen]
      exact mem_selectTopK _ hidx
    obtain ⟨h1, h2, _, _⟩ := hrow idx hlt
    refine ⟨idx, hlt, rfl, rfl, rfl, rfl, ?_⟩
    show (combinedScores (semanticScores oracles q embs)
        (keywordScores oracles st question)).getD idx 0 =
      0.7 * (((semanticScores oracles q embs).getD idx 0 + 1) / 2) +
        0.3 * ((keywordScores oracles st question).getD idx 0)
    exact h2

/-- Witness for C3 at the concrete fixture. -/
theorem claim_C3_witness :
    (exState.chunk_embeddings = some [[1], [1]] ∧
      questionEmbedding exOracles ['x'] = some [1] ∧
      (semanticScores exOracles [1] [[1], [1]]).length = exState.text_chunks.length ∧
      (keywordScores exOracles exState ['x']).length = exState.text_chunks.length) ∧
    (∀ i < exState.text_chunks.length,
      (semanticScores exOracles [1] [[1], [1]]).getD i 0 =
        exOracles.cosSimSem [1] ([[1], [1]].getD i []) ∧
      (combinedScores (semanticScores exOracles [1] [[1], [1]])
          (keywordScores exOracles exState ['x'])).getD i 0 =
        0.7 * (((semanticScores exOracles [1] [[1], [1]]).getD i 0 + 1) / 2) +
          0.3 * ((keywordScores exOracles exState ['x']).getD i 0) ∧
      ((exState.tfidf_vectorizer = none ∨ exState.tfidf_matrix = none) →
        (keywordScores exOracles exState ['x']).getD i 0 = 0) ∧
      (∀ v m, exState.tfidf_vectorizer = some v → exState.tfidf_matrix = some m →
        (keywordScores exOracles exState ['x']).getD i 0 =
          exOracles.cosSimKw (exOracles.transform v ['x']) (m.getD i []))) ∧
    (∀ c ∈ hybrid_search exOracles exState ['x'],
      ∃ i < exState.text_chunks.length,
        c.chunk = exState.text_chunks.getD i default ∧
        c.semantic_score = (semanticScores exOracles [1] [[1], [1]]).getD i 0 ∧
        c.keyword_score = (keywordScores exOracles exState ['x']).getD i 0 ∧
        c.combined_score = (combinedScores (semanticScores exOracles [1] [[1], [1]])
          (keywordScores exOracles exState ['x'])).getD i 0 ∧
        c.combined_score = 0.7 * ((c.semantic_score + 1) / 2) + 0.3 * c.keyword_score) :=
  ⟨⟨rfl, rfl, rfl, rfl⟩,
    (claim_C3_score_formula exOracles exState ['x'] [[1], [1]] [1] rfl rfl rfl rfl).1,
    (claim_C3_score_formula exOracles exState ['x'] [[1], [1]] [1] rfl rfl rfl rfl).2⟩

/-- C4 (confirmed): every chunk in the sequence returned by `hybrid_search`
has `combined_score` strictly greater than the fixed relevance floor `0.15`,
the result contains at most `SEARCH_RESULTS` chunks, and whenever every
selected (top-K) chunk scores at or below the floor the result is empty. -/
theorem claim_C4_floor (oracles : SearchOracles) (st : SearchState) (question : PyStr) :
    (∀ c ∈ hybrid_search oracles st question, 0.15 < c.combined_score) ∧
    (hybrid_search oracles st question).length ≤ Config.SEARCH_RESULTS ∧
    (∀ embs q, st.chunk_embeddings = some embs →
      questionEmbedding oracles question = some q →
      (∀ i ∈ selectTopK (combinedScores (semanticScores oracles q embs)
          (keywordScores oracles st question)),
        (combinedScores (semanticScores oracles q embs)
          (keywordScores oracles st question)).getD i 0 ≤ 0.15) →
      hybrid_search oracles st question = []) := by
  have hmain : hybrid_search oracles st question = [] ∨
      ∃ embs q, st.chunk_embeddings = some embs ∧
        questionEmbedding oracles question = some q ∧ st.text_chunks ≠ [] ∧
        (semanticScores oracles q embs).length = st.text_chunks.length ∧
        (keywordScores oracles st question).length = st.text_chunks.length := by
    cases hemb : st.chunk_embeddings with
    | none => exact Or.inl (hybrid_search_eq_nil_of_none oracles st question hemb)
    | some embs =>
      by_cases hch : st.text_chunks = []
      · exact Or.inl (hybrid_search_eq_nil_of_no_chunks oracles st question hch)
      · cases hq : questionEmbedding oracles question with
        | none => exact Or.inl (hybrid_search_eq_nil_of_encode_fail oracles st question hq)
        | some q =>
          by_cases hg : (semanticScores oracles q embs).length ≠ st.text_chunks.length ∨
              (keywordScores oracles st question).length ≠ st.text_chunks.length
          · exact Or.inl (hybrid_search_eq_nil_of_mismatch oracles st question embs q hemb hq hg)
          · push_neg at hg
            exact Or.inr ⟨embs, q, rfl, rfl, hch, hg.1, hg.2⟩
  refine ⟨?_, ?_, ?_⟩
  · intro c hc
    rcases hmain with hnil | ⟨embs, q, hemb, hq, hch, hsem, hkw⟩
    · rw [hnil] at hc
      exact absurd hc (List.not_mem_nil c)
    · rw [hybrid_search_eq hemb hq hch hsem hkw] at hc
      exact of_decide_eq_true (List.mem_filter.1 hc).2
  · rcases hmain with hnil | ⟨embs, q, hemb, hq, hch, hsem, hkw⟩
    · simp [hnil]
    · rw [hybrid_search_eq hemb hq hch hsem hkw]
      calc (List.filter _ _).length ≤ (List.map (scoredChunkAt st.text_chunks _ _ _)
            (selectTopK _)).length := List.length_filter_le _ _
        _ = (selectTopK _).length := List.length_map _ _
        _ ≤ Config.SEARCH_RESULTS := by
            rw [selectTopK_length]
            exact min_le_left _ _
  · intro embs q hemb hq hall
    rcases hmain with hnil | ⟨embs', q', hemb', hq', hch, hsem, hkw⟩
    · exact hnil
    · have hembs : embs' = embs := by
        rw [hemb] at hemb'
        exact (Option.some.inj hemb').symm
      have hqs : q' = q := by
        rw [hq] at hq'
        exact (Option.some.inj hq').symm
      subst hembs
      subst hqs
      rw [hybrid_search_eq hemb hq hch hsem hkw]
      rw [List.filter_eq_nil_iff]
      intro a ha
      obtain ⟨idx, hidx, rfl⟩ := List.mem_map.1 ha
      have := hall idx hidx
      simp only [scoredChunkAt, decide_eq_true_eq]
      exact not_lt.2 this

/-- C7 (amended): `hybrid_search` is total (the `try/except` returns `[]` on
any error) and returns the empty sequence when the index is absent, when the
chunk list is empty, when query encoding fails after exhausting the retry
budget, and when a scoring error (mismatched score-array shapes) occurs.
The original claim's assertion that the empty-string query returns an empty
sequence fails: the code gives the empty string no special treatment, see the
counterexample. -/
theorem claim_C7_empty_paths (oracles : SearchOracles) (st : SearchState) (question : PyStr) :
    (st.chunk_embeddings = none → hybrid_search oracles st question = []) ∧
    (st.text_chunks = [] → hybrid_search oracles st question = []) ∧
    (questionEmbedding oracles question = none → hybrid_search oracles st question = []) ∧
    (∀ embs q, st.chunk_embeddings = some embs →
      questionEmbedding oracles question = some q →
      ((semanticScores oracles q embs).length ≠ st.text_chunks.length ∨
        (keywordScores oracles st question).length ≠ st.text_chunks.length) →
      hybrid_search oracles st question = []) :=
  ⟨hybrid_search_eq_nil_of_none oracles st question,
    hybrid_search_eq_nil_of_no_chunks oracles st question,
    hybrid_search_eq_nil_of_encode_fail oracles st question,
    fun embs q hemb hq hg =>
      hybrid_search_eq_nil_of_mismatch oracles st question embs q hemb hq hg⟩

/-- Oracle fixture whose semantic similarities are all `-1` (rescaled to
`0`), putting every combined score at the floor. -/
def exOraclesNeg : SearchOracles :=
  { encode := fun _ _ => some [1], cosSimSem := fun _ _ => -1, cosSimKw := fun _ _ => 0,
    transform := fun _ _ => [] }

/-- Search-state fixture with a single chunk. -/
def exStateOne : SearchState :=
  { text_chunks := [exChunk 0], chunk_embeddings := some [[1]],
    tfidf_vectorizer := none, tfidf_matrix := none }

/-- Witness for C4: with every raw cosine `-1` the single chunk's combined
score is `0`, at or below the floor, so the result is empty (and bounded by
`SEARCH_RESULTS`). -/
theorem claim_C4_witness :
    (exStateOne.chunk_embeddings = some [[1]] ∧
      questionEmbedding exOraclesNeg ['x'] = some [1]) ∧
    (hybrid_search exOraclesNeg exStateOne ['x']).length ≤ Config.SEARCH_RESULTS ∧
    hybrid_search exOraclesNeg exStateOne ['x'] = [] :=
  ⟨⟨rfl, rfl⟩, (claim_C4_floor exOraclesNeg exStateOne ['x']).2.1,
    (claim_C4_floor exOraclesNeg exStateOne ['x']).2.2 [[1]] [1] rfl rfl (by
      norm_num [selectTopK, argsort, argsortLe, takeRight, combinedScores, semanticScores,
        keywordScores, exOraclesNeg, exStateOne, exChunk, Config.SEARCH_RESULTS,
        List.range_succ])⟩

/-- C7 counterexample: with an encoder assigning the empty-string query
cosine similarity 1 against both chunks, `hybrid_search` on the empty string
returns both chunks (combined score 0.7 > 0.15) — not the empty sequence the
claim asserts. -/
theorem claim_C7_counterexample :
    hybrid_search exOracles exState [] ≠ [] ∧
    (hybrid_search exOracles exState []).map (fun c => c.chunk.chunk_id) = [1, 0] := by
  have hmap : (hybrid_search exOracles exState []).map (fun c => c.chunk.chunk_id) = [1, 0] := by
    norm_num [hybrid_search, exOracles, exState, exChunk, questionEmbedding, semanticScores,
      keywordScores, combinedScores, selectTopK, argsort, argsortLe, takeRight, scoredChunkAt,
      Config.SEARCH_RESULTS, Config.MAX_RETRIES, List.range_succ, List.findSome?]
  refine ⟨?_, hmap⟩
  intro h
  rw [h] at hmap
  cases hmap

/-- Witness for C7: an absent index yields `[]`, and an encoder that fails
every retry yields `[]`. -/
theorem claim_C7_witness :
    hybrid_search exOracles
      { text_chunks := [exChunk 0], chunk_embeddings := none,
        tfidf_vectorizer := none, tfidf_matrix := none } ['x'] = [] ∧
    hybrid_search
      { encode := fun _ _ => none, cosSimSem := fun _ _ => 1, cosSimKw := fun _ _ => 0,
        transform := fun _ _ => [] } exState ['x'] = [] :=
  ⟨(claim_C7_empty_paths _ _ _).1 rfl, (claim_C7_empty_paths _ _ _).2.2.1 rfl⟩

/-! ### Claims about the index build and the cache -/

theorem pyBatchesFuel_flatten {α : Type} :
    ∀ (fuel n : Nat) (l : List α), l.length ≤ fuel → 0 < n →
      (pyBatchesFuel fuel n l).flatten = l := by
  intro fuel
  induction fuel with
  | zero =>
    intro n l h _
    have : l = [] := List.length_eq_zero.1 (Nat.le_zero.1 h)
    subst this
    rfl
  | succ fuel ih =>
    intro n l h hn
    cases l with
    | nil => rfl
    | cons x xs =>
      rw [pyBatchesFuel, List.flatten_cons]
      rw [ih n ((x :: xs).drop n) (by
        have h' := h
        simp only [List.length_drop, List.length_cons] at h' ⊢
        omega) hn]
      exact List.take_append_drop n (x :: xs)

theorem pyBatches_flatten {α : Type} (n : Nat) (hn : 0 < n) (l : List α) :
    (pyBatches n l).flatten = l :=
  pyBatchesFuel_flatten _ _ _ le_rfl hn

theorem mapM_option_some {α β : Type} {f : α → Option β} :
    ∀ {l : List α} {l' : List β}, l.mapM f = some l' →
      List.Forall₂ (fun a b => f a = some b) l l' := by
  intro l
  induction l with
  | nil =>
    intro l' h
    simp only [List.mapM_nil, pure] at h
    cases h
    exact List.Forall₂.nil
  | cons a as ih =>
    intro l' h
    rw [List.mapM_cons] at h
    cases hfa : f a with
    | none => rw [hfa] at h; cases h
    | some b =>
      rw [hfa] at h
      cases has : as.mapM f with
      | none => rw [has] at h; cases h
      | some bs =>
        rw [has] at h
        simp only [Option.bind_some, Option.bind_eq_bind] at h
        cases h
        exact List.Forall₂.cons hfa (ih has)

theorem mapM_option_none_of_mem {α β : Type} {f : α → Option β} :
    ∀ {l : List α} {a : α}, a ∈ l → f a = none → l.mapM f = none := by
  intro l
  induction l with
  | nil => intro a ha; cases ha
  | cons x xs ih =>
    intro a ha hfa
    rw [List.mapM_cons]
    rcases List.mem_cons.1 ha with rfl | ha
    · rw [hfa]
      rfl
    · cases hfx : f x with
      | none => rfl
      | some b => rw [ih ha hfa]; rfl

theorem flatten_length_of_forall₂ {α β : Type} :
    ∀ {l₁ : List (List α)} {l₂ : List (List β)},
      List.Forall₂ (fun a b => b.length = a.length) l₁ l₂ →
      l₂.flatten.length = l₁.flatten.length := by
  intro l₁ l₂ h
  induction h with
  | nil => rfl
  | cons h₁ _ ih => simp [List.flatten_cons, h₁, ih]

/-- C5 (confirmed): under the external contracts that the encoder returns one
vector per input text and that the TF-IDF fit returns one row per document,
every successful build has an embedding matrix and a keyword-index matrix
with exactly one row per chunk (rows in chunk order by construction); and a
build in which any embedding batch fails after exhausting its retries
returns failure as a whole, with no combined embedding matrix. -/
theorem claim_C5_row_counts (encode : Nat → List PyStr → Option (List Vec))
    (fitMatrix : List PyStr → List Vec) (pdf_contents : List (PyStr × List PyStr))
    (hE : ∀ a b v, encode a b = some v → v.length = b.length)
    (hF : ∀ ts, (fitMatrix ts).length = ts.length) :
    (∀ idx, create_chunks_and_embeddings encode fitMatrix pdf_contents = some idx →
      idx.chunk_embeddings.length = idx.text_chunks.length ∧
      ∃ m, idx.tfidf_matrix = some m ∧ m.length = idx.text_chunks.length) ∧
    (∀ b ∈ pyBatches Config.BATCH_SIZE
        ((pdf_contents.flatMap fun fc => smart_chunk_text fc.2 fc.1).map Chunk.text),
      encodeWithRetry encode b = none →
      create_chunks_and_embeddings encode fitMatrix pdf_contents = none) := by
  constructor
  · intro idx h
    unfold create_chunks_and_embeddings at h
    by_cases hp : pdf_contents.isEmpty
    · simp [hp] at h
    · simp only [hp, Bool.false_eq_true, if_false] at h
      by_cases hc : (pdf_contents.flatMap fun fc => smart_chunk_text fc.2 fc.1).isEmpty
      · simp [hc] at h
      · simp only [hc, Bool.false_eq_true, if_false] at h
        cases hm : (pyBatches Config.BATCH_SIZE
            ((pdf_contents.flatMap fun fc => smart_chunk_text fc.2 fc.1).map
              Chunk.text)).mapM (encodeWithRetry encode) with
        | none => rw [hm] at h; cases h
        | some embeddings_list =>
          rw [hm] at h
          have hidx := (Option.some.inj h).symm
          subst hidx
          constructor
          · have hforall := mapM_option_some hm
            have hlens : List.Forall₂ (fun (b : List PyStr) (v : List Vec) =>
                v.length = b.length)
                (pyBatches Config.BATCH_SIZE
                  ((pdf_contents.flatMap fun fc => smart_chunk_text fc.2 fc.1).map Chunk.text))
                embeddings_list := by
              refine hforall.imp ?_
              intro b v hbv
              obtain ⟨attempt, _, henc⟩ := List.exists_of_findSome?_eq_some hbv
              exact hE attempt b v henc
            have := flatten_length_of_forall₂ hlens
            rw [pyBatches_flatten Config.BATCH_SIZE (by decide)] at this
            simpa using this
          · refine ⟨fitMatrix ((pdf_contents.flatMap fun fc =>
              smart_chunk_text fc.2 fc.1).map Chunk.text), ?_, ?_⟩
            · simp [createTfidfIndex, hc]
            · rw [hF]
              simp
  · intro b hb hfail
    unfold create_chunks_and_embeddings
    by_cases hp : pdf_contents.isEmpty
    · simp [hp]
    · by_cases hc : (pdf_contents.flatMap fun fc => smart_chunk_text fc.2 fc.1).isEmpty
      · simp [hp, hc]
      · simp only [hp, hc, Bool.false_eq_true, if_false]
        rw [mapM_option_none_of_mem hb hfail]

/-- C6 (confirmed): a successful `load_from_cache` requires a readable
metadata entry whose `cached_at` satisfies `now - created_at` strictly within
the retention window, a readable chunks artifact, and a readable embeddings
artifact — in particular a partial write with metadata and chunks but no
embeddings is never considered a valid load.  Every failure path returns
`False` (modelled `none`) rather than raising. -/
theorem claim_C6_load_requires_artifacts (fitMatrix : List PyStr → List Vec)
    (files : CacheFiles) (now : Int) (idx : EngineIndex)
    (h : load_from_cache fitMatrix files now = some idx) :
    (∃ t, files.meta = Artifact.present (some t) ∧ now - t < cacheDurationSeconds) ∧
    (∃ c, files.chunks = Artifact.present c) ∧
    (∃ e, files.embeddings = Artifact.present e) := by
  unfold load_from_cache at h
  by_cases hv : is_cache_valid files now
  · rw [if_neg (not_not_intro hv)] at h
    have hmeta : ∃ t, files.meta = Artifact.present (some t) ∧
        now - t < cacheDurationSeconds := by
      unfold is_cache_valid at hv
      cases hm : files.meta with
      | missing => simp [hm] at hv
      | corrupt => simp [hm] at hv
      | present o =>
        cases o with
        | none => simp [hm] at hv
        | some t =>
          rw [hm] at hv
          exact ⟨t, rfl, of_decide_eq_true hv⟩
    cases hch : files.chunks with
    | missing => simp [hch] at h
    | corrupt => simp [hch] at h
    | present c =>
      cases he : files.embeddings with
      | missing => simp [hch, he] at h
      | corrupt => simp [hch, he] at h
      | present e => exact ⟨hmeta, ⟨c, rfl⟩, ⟨e, rfl⟩⟩
  · rw [if_pos hv] at h
    cases h

/-- C10 (confirmed): when metadata is valid and chunks and embeddings load
but the pickled TF-IDF vectorizer file is missing, `load_from_cache` does not
treat the entry as absent: it rebuilds the TF-IDF index from the just-loaded
chunk texts via `_create_tfidf_index` and still reports a successful load. -/
theorem claim_C10_tfidf_rebuild (fitMatrix : List PyStr → List Vec) (files : CacheFiles)
    (now t : Int) (c : List Chunk) (e : List Vec)
    (hm : files.meta = Artifact.present (some t)) (ht : now - t < cacheDurationSeconds)
    (hc : files.chunks = Artifact.present c) (he : files.embeddings = Artifact.present e)
    (hv : files.tfidf_vectorizer = Artifact.missing) :
    load_from_cache fitMatrix files now =
      some { text_chunks := c, chunk_embeddings := e,
             tfidf_vectorizer := (createTfidfIndex fitMatrix c).1,
             tfidf_matrix := (createTfidfIndex fitMatrix c).2 } := by
  unfold load_from_cache
  have hvalid : is_cache_valid files now = true := by
    unfold is_cache_valid
    rw [hm]
    exact decide_eq_true ht
  rw [if_neg (by simp [hvalid])]
  simp [hc, he, hv]

/-- Encoder fixture: one (empty) vector per batch element, always succeeds. -/
def exEncode : Nat → List PyStr → Option (List Vec) := fun _ b => some (b.map fun _ => [])

/-- TF-IDF fit fixture: one (empty) row per document. -/
def exFitMatrix : List PyStr → List Vec := fun ts => ts.map fun _ => []

/-- The chunk produced by the C5 witness build. -/
def exBuildChunk : Chunk :=
  { text := ['h', 'i'], source := ['f'], chunk_id := 0, coreSentences := [['h', 'i']],
    overlapWords := [] }

/-- The index produced by the C5 witness build. -/
def exBuildIndex : EngineIndex :=
  { text_chunks := [exBuildChunk], chunk_embeddings := [[]],
    tfidf_vectorizer := some { fittedOn := [['h', 'i']] },
    tfidf_matrix := some [[]] }

/-- Witness for C5: a one-document, one-chunk build succeeds with one
embedding row and one TF-IDF row. -/
theorem claim_C5_witness :
    (create_chunks_and_embeddings exEncode exFitMatrix [(['f'], [['h', 'i']])] =
      some exBuildIndex) ∧
    (exBuildIndex.chunk_embeddings.length = exBuildIndex.text_chunks.length ∧
      ∃ m, exBuildIndex.tfidf_matrix = some m ∧
        m.length = exBuildIndex.text_chunks.length) :=
  ⟨rfl,
    (claim_C5_row_counts exEncode exFitMatrix [(['f'], [['h', 'i']])]
      (fun a b v h => by rw [← Option.some.inj h]; simp [exEncode])
      (fun ts => by simp [exFitMatrix])).1 exBuildIndex rfl⟩

/-- Cache fixture with every artifact present and a fresh timestamp. -/
def exCacheFiles : CacheFiles :=
  { meta := Artifact.present (some 0), chunks := Artifact.present [],
    embeddings := Artifact.present [], tfidf_vectorizer := Artifact.present { fittedOn := [] },
    tfidf_matrix := Artifact.present [] }

/-- Witness for C6: a fully present, fresh cache entry loads successfully and
satisfies the validity conditions. -/
theorem claim_C6_witness :
    (load_from_cache exFitMatrix exCacheFiles 0 =
      some { text_chunks := [], chunk_embeddings := [],
             tfidf_vectorizer := some { fittedOn := [] }, tfidf_matrix := some [] }) ∧
    ((∃ t, exCacheFiles.meta = Artifact.present (some t) ∧
        (0 : Int) - t < cacheDurationSeconds) ∧
      (∃ c, exCacheFiles.chunks = Artifact.present c) ∧
      (∃ e, exCacheFiles.embeddings = Artifact.present e)) :=
  ⟨rfl, claim_C6_load_requires_artifacts exFitMatrix exCacheFiles 0 _ rfl⟩

/-- Cache fixture whose TF-IDF vectorizer file is missing. -/
def exCacheFilesNoVec : CacheFiles :=
  { meta := Artifact.present (some 0), chunks := Artifact.present [exChunk 0],
    embeddings := Artifact.present [[1]], tfidf_vectorizer := Artifact.missing,
    tfidf_matrix := Artifact.missing }

/-- Witness for C10: chunks and embeddings present, vectorizer file missing —
the load succeeds with a rebuilt TF-IDF index. -/
theorem claim_C10_witness :
    (exCacheFilesNoVec.meta = Artifact.present (some 0) ∧
      (0 : Int) - 0 < cacheDurationSeconds ∧
      exCacheFilesNoVec.tfidf_vectorizer = Artifact.missing) ∧
    load_from_cache exFitMatrix exCacheFilesNoVec 0 =
      some { text_chunks := [exChunk 0], chunk_embeddings := [[1]],
             tfidf_vectorizer := (createTfidfIndex exFitMatrix [exChunk 0]).1,
             tfidf_matrix := (createTfidfIndex exFitMatrix [exChunk 0]).2 } :=
  ⟨⟨rfl, by decide, rfl⟩,
    claim_C10_tfidf_rebuild exFitMatrix exCacheFilesNoVec 0 0 [exChunk 0] [[1]]
      rfl (by decide) rfl rfl rfl⟩
